import Mathlib

/-!
Shallow embedding of the collection-utility library `guti` (src/list.go) and
theorems checking the specification's claims about it.

The library operates on Go values through the `reflect` package, dispatching
on `reflect.Kind`.  Machine integers are modelled as `Int`/`Nat` (equality of
same-width values is width-independent), floating point values as exact
rationals `ℚ`, and panics / returned errors as `Except String`.
-/

instance {ε α : Type} [DecidableEq ε] [DecidableEq α] : DecidableEq (Except ε α) := fun
  | .ok a, .ok b => decidable_of_iff (a = b) (by simp)
  | .ok _, .error _ => .isFalse (by simp)
  | .error _, .ok _ => .isFalse (by simp)
  | .error e, .error f => decidable_of_iff (e = f) (by simp)

namespace Guti

/-- Signed integer kinds: `reflect.Int`, `Int8`, `Int16`, `Int32`, `Int64`. -/
inductive SignedK
  | i | i8 | i16 | i32 | i64
deriving DecidableEq

/-- Unsigned integer kinds: `reflect.Uint`, `Uint8`, ..., `Uint64`. -/
inductive UnsignedK
  | u | u8 | u16 | u32 | u64
deriving DecidableEq

/-- Floating point kinds: `reflect.Float32`, `reflect.Float64`. -/
inductive FloatK
  | f32 | f64
deriving DecidableEq

/-- A primitive Go value (used as a struct field value). -/
inductive PrimVal
  | int (k : SignedK) (v : Int)
  | uint (k : UnsignedK) (v : Nat)
  | float (k : FloatK) (v : ℚ)
  | str (s : String)
  | bool (b : Bool)
deriving DecidableEq

/-- A concrete (non-nil) Go value as seen by `reflect`.  Floating point values
are modelled as exact rationals; a struct value carries its type name and its
named fields in declaration order (flat structs suffice for the claims). -/
inductive GoVal
  | int (k : SignedK) (v : Int)
  | uint (k : UnsignedK) (v : Nat)
  | float (k : FloatK) (v : ℚ)
  | str (s : String)
  | bool (b : Bool)
  | struct (typeName : String) (fields : List (String × PrimVal))
deriving DecidableEq

/-- The `reflect.Kind` values the embedding needs. -/
inductive Kind
  | kInt | kInt8 | kInt16 | kInt32 | kInt64
  | kUint | kUint8 | kUint16 | kUint32 | kUint64
  | kFloat32 | kFloat64
  | kString | kBool | kStruct | kInterface
deriving DecidableEq

def SignedK.kind : SignedK → Kind
  | .i => .kInt
  | .i8 => .kInt8
  | .i16 => .kInt16
  | .i32 => .kInt32
  | .i64 => .kInt64

def UnsignedK.kind : UnsignedK → Kind
  | .u => .kUint
  | .u8 => .kUint8
  | .u16 => .kUint16
  | .u32 => .kUint32
  | .u64 => .kUint64

def FloatK.kind : FloatK → Kind
  | .f32 => .kFloat32
  | .f64 => .kFloat64

/-- `reflect.TypeOf(v).Kind()` of a concrete value: the kind of its dynamic
type.  A concrete value never has kind `Interface`. -/
def kindOf : GoVal → Kind
  | .int k _ => k.kind
  | .uint k _ => k.kind
  | .float k _ => k.kind
  | .str _ => .kString
  | .bool _ => .kBool
  | .struct _ _ => .kStruct

/-- `const epsilon = 1e-6` (src/list.go line 11). -/
def epsilon : ℚ := 1 / 1000000

/-- `reflect.Value.Int()`: the (sign-extended) value of a signed-integer
value.  In the source it is only called on values of signed integer kind;
the default `0` is never reached there. -/
def intVal : GoVal → Int
  | .int _ v => v
  | _ => 0

/-- `reflect.Value.Uint()`; only called on unsigned-integer kinds. -/
def uintVal : GoVal → Nat
  | .uint _ v => v
  | _ => 0

/-- `reflect.Value.Float()`; only called on floating point kinds (a `float32`
is widened to `float64`, which does not change its exact value). -/
def floatVal : GoVal → ℚ
  | .float _ v => v
  | _ => 0

/-- `reflect.Value.String()`; only called on string kind. -/
def strVal : GoVal → String
  | .str s => s
  | _ => ""

/-- `reflect.Value.Bool()`; only called on bool kind. -/
def boolVal : GoVal → Bool
  | .bool b => b
  | _ => false

/-- `math.Abs`, on the exact rationals modelling float64. -/
def ratAbs (q : ℚ) : ℚ := if q < 0 then -q else q

theorem ratAbs_eq_abs (q : ℚ) : ratAbs q = |q| := by
  by_cases h : q < 0
  · rw [ratAbs, if_pos h, abs_of_neg h]
  · rw [ratAbs, if_neg h, abs_of_nonneg (le_of_not_lt h)]

/-- `s.Index(i).Kind()`: the kind of the slice's static element type.  For a
`[]T` with concrete `T` this is the element's own dynamic kind; for a
`[]interface` slice it is `reflect.Interface` regardless of the boxed value. -/
def indexKind (elemIsInterface : Bool) (x : GoVal) : Kind :=
  if elemIsInterface then .kInterface else kindOf x

/-- One iteration of the loop in `IsExist` (src/list.go lines 56-87) applied
to the element `x`: the `continue` on a kind mismatch is rendered as `false`,
then the `switch` on the element's kind compares values; the `default` case
is `reflect.DeepEqual(what, s.Index(i).Interface())`, which on the values of
this model is structural equality. -/
def matchOne (what : GoVal) (elemIsInterface : Bool) (x : GoVal) : Bool :=
  if indexKind elemIsInterface x = kindOf what then
    match indexKind elemIsInterface x with
    | .kInt | .kInt8 | .kInt16 | .kInt32 | .kInt64 =>
        intVal x == intVal what
    | .kUint | .kUint8 | .kUint16 | .kUint32 | .kUint64 =>
        uintVal x == uintVal what
    | .kFloat32 | .kFloat64 =>
        decide (ratAbs (floatVal x - floatVal what) < epsilon)
    | .kString => strVal x == strVal what
    | .kBool => boolVal x == boolVal what
    | _ => decide (what = x)
  else
    false

/-- The second argument of `IsExist`, an `interface` value: either some
non-slice value, or a slice, whose static element type is either a concrete
type or `interface` (`elemIsInterface`). -/
inductive GoArg
  | scalar (v : GoVal)
  | slice (elemIsInterface : Bool) (elems : List GoVal)

/-- `IsExist` (src/list.go lines 49-90).  The panic on a non-slice second
argument is modelled as `Except.error`; the scanning loop with its early
`return true` is `List.any`. -/
def IsExist (what : GoVal) (arg : GoArg) : Except String Bool :=
  match arg with
  | .scalar _ => .error "IsExist: Second argument must be a slice"
  | .slice elemIsInterface elems =>
      .ok (elems.any (matchOne what elemIsInterface))

example : IsExist (.int .i 3) (.slice false [.int .i 1, .int .i 2, .int .i 3]) = .ok true := by decide
example : IsExist (.int .i 6) (.slice false [.int .i 1, .int .i 2, .int .i 3]) = .ok false := by decide
example : IsExist (.str "foo") (.slice false [.str "foo", .str "bar"]) = .ok true := by decide
example : IsExist (.float .f64 1) (.slice false [.float .f64 (1 + 5/10000000)]) = .ok true := by
  simp only [IsExist, List.any_cons, List.any_nil, matchOne, indexKind, kindOf, FloatK.kind,
    floatVal, epsilon, ratAbs]
  norm_num

example : IsExist (.float .f64 1) (.slice false [.float .f64 (1 + 5/100000)]) = .ok false := by
  simp only [IsExist, List.any_cons, List.any_nil, matchOne, indexKind, kindOf, FloatK.kind,
    floatVal, epsilon, ratAbs]
  norm_num
example : IsExist (.int .i8 3) (.slice false [.int .i64 3]) = .ok false := by decide
example : IsExist (.int .i 1) (.slice true [.int .i 1]) = .ok false := by decide

theorem kindOf_ne_interface (v : GoVal) : kindOf v ≠ Kind.kInterface := by
  cases v with
  | int k v => cases k <;> simp [kindOf, SignedK.kind]
  | uint k v => cases k <;> simp [kindOf, UnsignedK.kind]
  | float k v => cases k <;> simp [kindOf, FloatK.kind]
  | str s => simp [kindOf]
  | bool b => simp [kindOf]
  | struct n f => simp [kindOf]

/-- Value equality of two same-kind values, as the specification words it
(spec §4.1): integer kinds by exact numeric value, float kinds by
approximate equality `|a - b| < epsilon`, string and bool kinds by exact
equality, any other kind (structured values) by deep structural equality. -/
def valueEqSpec : GoVal → GoVal → Prop
  | .int _ a, .int _ b => a = b
  | .uint _ a, .uint _ b => a = b
  | .float _ a, .float _ b => |a - b| < epsilon
  | .str a, .str b => a = b
  | .bool a, .bool b => a = b
  | .struct n f, .struct m g => n = m ∧ f = g
  | _, _ => False

/-- The loop body of `IsExist` matches an element exactly when the element's
runtime kind (as the slice presents it) equals the probe's kind and the two
values are equal under the per-kind policy of spec §4.1. -/
theorem matchOne_iff (p x : GoVal) (isIf : Bool) :
    matchOne p isIf x = true ↔ (indexKind isIf x = kindOf p ∧ valueEqSpec p x) := by
  cases isIf
  · cases p <;> cases x <;> (try cases_type* SignedK UnsignedK FloatK) <;>
      simp [matchOne, indexKind, kindOf, valueEqSpec, SignedK.kind, UnsignedK.kind, FloatK.kind,
        intVal, uintVal, floatVal, strVal, boolVal, ratAbs_eq_abs] <;>
      (first
        | rfl
        | exact eq_comm
        | rw [abs_sub_comm])
  · cases p <;> (try cases_type* SignedK UnsignedK FloatK) <;>
      simp [matchOne, indexKind, kindOf, valueEqSpec, SignedK.kind, UnsignedK.kind, FloatK.kind]

/-- `IsExist` on a slice returns `true` exactly when some element matches the
probe under the kind-and-value policy. -/
theorem isExist_slice_iff (p : GoVal) (isIf : Bool) (elems : List GoVal) :
    IsExist p (.slice isIf elems) = .ok true ↔
      ∃ x ∈ elems, indexKind isIf x = kindOf p ∧ valueEqSpec p x := by
  constructor
  · intro h
    have h2 : elems.any (matchOne p isIf) = true := by
      simpa [IsExist] using h
    obtain ⟨x, hx, hm⟩ := List.any_eq_true.mp h2
    exact ⟨x, hx, (matchOne_iff p x isIf).mp hm⟩
  · rintro ⟨x, hx, hm⟩
    have h2 : elems.any (matchOne p isIf) = true :=
      List.any_eq_true.mpr ⟨x, hx, (matchOne_iff p x isIf).mpr hm⟩
    simpa [IsExist] using h2

/-- C1: for every probe `p` and sequence `S`, `IsExist(p, S)` returns true iff
`S` contains an element whose runtime kind equals the probe's and whose value
is equal to the probe's under the per-kind policy (floats by `|a-b| < 1e-6`);
in particular a float probe `1.0` matches an element `1.0 + 5e-7` but does
not match an element `1.0 + 5e-5`. -/
theorem claim1_isExist_membership (p : GoVal) (isIf : Bool) (elems : List GoVal) :
    (IsExist p (.slice isIf elems) = .ok true ↔
      ∃ x ∈ elems, indexKind isIf x = kindOf p ∧ valueEqSpec p x) ∧
    IsExist (.float .f64 1) (.slice false [.float .f64 (1 + 5/10000000)]) = .ok true ∧
    IsExist (.float .f64 1) (.slice false [.float .f64 (1 + 5/100000)]) = .ok false := by
  refine ⟨isExist_slice_iff p isIf elems, ?_, ?_⟩ <;>
    (simp only [IsExist, List.any_cons, List.any_nil, matchOne, indexKind, kindOf, FloatK.kind,
      floatVal, epsilon, ratAbs]
     norm_num)

theorem claim1_witness :
    (IsExist (.int .i 3) (.slice false [.int .i 1, .int .i 2, .int .i 3]) = .ok true ↔
      ∃ x ∈ [GoVal.int .i 1, .int .i 2, .int .i 3],
        indexKind false x = kindOf (.int .i 3) ∧ valueEqSpec (.int .i 3) x) ∧
    IsExist (.float .f64 1) (.slice false [.float .f64 (1 + 5/10000000)]) = .ok true ∧
    IsExist (.float .f64 1) (.slice false [.float .f64 (1 + 5/100000)]) = .ok false :=
  claim1_isExist_membership (.int .i 3) false [.int .i 1, .int .i 2, .int .i 3]

/-- Exact numeric value of an integer value (signed or unsigned), width
ignored; `none` on non-integer values. -/
def intNum : GoVal → Option Int
  | .int _ v => some v
  | .uint _ v => some (v : Int)
  | _ => none

/-- C2 counterexample: the probe `int8(3)` and the slice `[]int64{3}`.  The
claim says the probe should match the element (equal numeric value, both of
signed integer categories, widths ignored), but `IsExist` skips the element
because `reflect.Int64 != reflect.Int8`, and returns false. -/
theorem claim2_counterexample :
    ¬ (IsExist (.int .i8 3) (.slice false [.int .i64 3]) = .ok true ↔
        ∃ x ∈ [GoVal.int .i64 3], intNum x = intNum (.int .i8 3)) := by
  decide

/-- A value of (signed or unsigned) integer kind. -/
def isIntegerVal : GoVal → Bool
  | .int _ _ => true
  | .uint _ _ => true
  | _ => false

theorem value_int_iff (p x : GoVal) (hp : isIntegerVal p = true) (hx : isIntegerVal x = true)
    (hk : kindOf x = kindOf p) : valueEqSpec p x ↔ intNum x = intNum p := by
  cases p <;> cases x <;> (try cases_type* SignedK UnsignedK FloatK) <;>
    simp_all [isIntegerVal, valueEqSpec, intNum, kindOf, SignedK.kind, UnsignedK.kind] <;>
    exact eq_comm

/-- C2 amended: for an integer-kind probe and a slice of integer-kind
elements, `IsExist` returns true iff some element has the same exact
`reflect.Kind` as the probe (identical signedness and width) and the same
numeric value; equal values of different widths do not match. -/
theorem claim2_amended (p : GoVal) (elems : List GoVal)
    (hp : isIntegerVal p = true) (he : ∀ x ∈ elems, isIntegerVal x = true) :
    IsExist p (.slice false elems) = .ok true ↔
      ∃ x ∈ elems, kindOf x = kindOf p ∧ intNum x = intNum p := by
  rw [isExist_slice_iff]
  constructor
  · rintro ⟨x, hx, hk, hv⟩
    have hk2 : kindOf x = kindOf p := by simpa [indexKind] using hk
    exact ⟨x, hx, hk2, (value_int_iff p x hp (he x hx) hk2).mp hv⟩
  · rintro ⟨x, hx, hk, hv⟩
    exact ⟨x, hx, by simpa [indexKind] using hk, (value_int_iff p x hp (he x hx) hk).mpr hv⟩

theorem claim2_witness :
    IsExist (.int .i8 3) (.slice false [.int .i8 2, .int .i8 3]) = .ok true ↔
      ∃ x ∈ [GoVal.int .i8 2, .int .i8 3],
        kindOf x = kindOf (.int .i8 3) ∧ intNum x = intNum (.int .i8 3) :=
  claim2_amended (.int .i8 3) [.int .i8 2, .int .i8 3] (by decide) (by decide)

/-- C3: on a `[]interface` slice, every element's reflected kind is
`reflect.Interface`, which never equals a concrete probe's kind, so every
element is skipped and `IsExist` returns false whatever the boxed values. -/
theorem claim3_interface_slice (p : GoVal) (elems : List GoVal) (_h : elems ≠ []) :
    IsExist p (.slice true elems) = .ok false := by
  have hall : elems.any (matchOne p true) = false := by
    rw [List.any_eq_false]
    intro x hx hm
    rcases (matchOne_iff p x true).mp hm with ⟨hk, _⟩
    exact kindOf_ne_interface p (by simpa [indexKind] using hk.symm)
  simp [IsExist, hall]

theorem claim3_witness :
    IsExist (.int .i 1) (.slice true [.int .i 1]) = .ok false :=
  claim3_interface_slice (.int .i 1) [.int .i 1] (by decide)

/-- C8: calling `IsExist` with a non-slice second argument panics with the
diagnostic `IsExist: Second argument must be a slice` and in particular never
returns false (or any boolean). -/
theorem claim8_nonslice_panics (p v : GoVal) :
    IsExist p (.scalar v) = .error "IsExist: Second argument must be a slice" ∧
    ∀ b : Bool, IsExist p (.scalar v) ≠ .ok b :=
  ⟨rfl, fun b h => by simp [IsExist] at h⟩

theorem claim8_witness :
    IsExist (.str "probe") (.scalar (.int .i 7)) =
      .error "IsExist: Second argument must be a slice" ∧
    ∀ b : Bool, IsExist (.str "probe") (.scalar (.int .i 7)) ≠ .ok b :=
  claim8_nonslice_panics (.str "probe") (.int .i 7)

/-- `MapReduce` (src/list.go lines 251-265).  The first loop maps every
element in index order (`List.map`); `mappedItems[0]` on an empty slice is a
runtime panic, modelled as `Except.error`; the second loop left-folds the
tail of the mapped slice with the first mapped element as the accumulator. -/
def MapReduce (items : List GoVal) (mapper : GoVal → GoVal)
    (reducer : GoVal → GoVal → GoVal) : Except String GoVal :=
  let mappedItems := items.map mapper
  match mappedItems with
  | [] => .error "runtime error: index out of range"
  | m0 :: rest => .ok (rest.foldl reducer m0)

/-- The `double` mapper of the spec's example, on dynamic integer values. -/
def goDouble : GoVal → GoVal
  | .int k v => .int k (2 * v)
  | x => x

/-- The `sum` reducer of the spec's example, on dynamic integer values. -/
def goSum : GoVal → GoVal → GoVal
  | .int k a, .int _ b => .int k (a + b)
  | a, _ => a

/-- C5: on a non-empty sequence, `MapReduce` first maps every element in
order, then left-folds the mapped sequence with the first mapped element as
the initial accumulator; in particular `MapReduce([1,2,3,4], double, sum)`
maps to `[2,4,6,8]` and reduces to `20`. -/
theorem claim5_mapreduce (items : List GoVal) (mapper : GoVal → GoVal)
    (reducer : GoVal → GoVal → GoVal) (h : items ≠ []) :
    (∃ m0 rest, items.map mapper = m0 :: rest ∧
      MapReduce items mapper reducer = .ok (rest.foldl reducer m0)) ∧
    [GoVal.int .i 1, .int .i 2, .int .i 3, .int .i 4].map goDouble =
      [GoVal.int .i 2, .int .i 4, .int .i 6, .int .i 8] ∧
    MapReduce [GoVal.int .i 1, .int .i 2, .int .i 3, .int .i 4] goDouble goSum =
      .ok (.int .i 20) := by
  refine ⟨?_, by decide, by decide⟩
  match items, h with
  | x :: xs, _ => exact ⟨mapper x, xs.map mapper, rfl, rfl⟩

theorem claim5_witness :
    (∃ m0 rest, [GoVal.int .i 1, .int .i 2, .int .i 3, .int .i 4].map goDouble = m0 :: rest ∧
      MapReduce [GoVal.int .i 1, .int .i 2, .int .i 3, .int .i 4] goDouble goSum =
        .ok (rest.foldl goSum m0)) ∧
    [GoVal.int .i 1, .int .i 2, .int .i 3, .int .i 4].map goDouble =
      [GoVal.int .i 2, .int .i 4, .int .i 6, .int .i 8] ∧
    MapReduce [GoVal.int .i 1, .int .i 2, .int .i 3, .int .i 4] goDouble goSum =
      .ok (.int .i 20) :=
  claim5_mapreduce [GoVal.int .i 1, .int .i 2, .int .i 3, .int .i 4] goDouble goSum (by decide)

/-- C6: calling `MapReduce` on an empty sequence aborts with a diagnostic
(the indexing panic on `mappedItems[0]`) for every mapper and reducer, and
never returns a value. -/
theorem claim6_mapreduce_empty (mapper : GoVal → GoVal)
    (reducer : GoVal → GoVal → GoVal) :
    MapReduce [] mapper reducer = .error "runtime error: index out of range" ∧
    ∀ v : GoVal, MapReduce [] mapper reducer ≠ .ok v :=
  ⟨rfl, fun v h => by simp [MapReduce] at h⟩

theorem claim6_witness :
    MapReduce [] goDouble goSum = .error "runtime error: index out of range" ∧
    ∀ v : GoVal, MapReduce [] goDouble goSum ≠ .ok v :=
  claim6_mapreduce_empty goDouble goSum

/-- `ConvertSliceInterfaceToSlice` (src/list.go lines 282-288): reboxes each
element of a reflected slice into a fresh `[]interface` slice; on the values
of this model it rebuilds the same list element by element. -/
def ConvertSliceInterfaceToSlice (s : List GoVal) : List GoVal :=
  s.map (fun x => x)

theorem convertSliceInterfaceToSlice_id (s : List GoVal) :
    ConvertSliceInterfaceToSlice s = s := by
  simp [ConvertSliceInterfaceToSlice]

/-- `itemsValue.Slice(i, e)` after its bounds check passed: the elements at
positions `i` to `e-1`. -/
def goSliceRange (elems : List GoVal) (i e : Int) : List GoVal :=
  (elems.drop i.toNat).take (e - i).toNat

/-- The loop of `Batch` (src/list.go lines 273-276), with explicit fuel:
`none` means the fuel ran out with the loop still running, `some (.error _)`
models the panic of `reflect.Value.Slice` on an out-of-bounds index, and
`some (.ok _)` is normal termination.  `b` is the already clamped batch
size, `i` the loop index (a Go `int`, so it can go negative). -/
def batchLoop (elems : List GoVal) (b : Int) :
    Nat → Int → List (List GoVal) → Option (Except String (List (List GoVal)))
  | 0, _, _ => none
  | fuel + 1, i, batches =>
    if i < (elems.length : Int) then
      if 0 ≤ i ∧ i ≤ min (i + b) (elems.length : Int) then
        batchLoop elems b fuel (i + b)
          (batches ++
            [ConvertSliceInterfaceToSlice
              (goSliceRange elems i (min (i + b) (elems.length : Int)))])
      else
        some (.error "reflect.Value.Slice: slice index out of bounds")
    else
      some (.ok batches)

/-- `Batch` (src/list.go lines 268-279): clamp the batch size to
`min(batchSize, len(items))` via `math.Min`, then run the loop. -/
def Batch (items : List GoVal) (batchSize : Int) (fuel : Nat) :
    Option (Except String (List (List GoVal))) :=
  batchLoop items (min batchSize (items.length : Int)) fuel 0 []

example : Batch [GoVal.int .i 1, .int .i 2, .int .i 3, .int .i 4, .int .i 5] 2 6 =
    some (.ok [[GoVal.int .i 1, .int .i 2], [.int .i 3, .int .i 4], [.int .i 5]]) := by decide

/-- Chunking of a list into consecutive pieces of `b` elements each, the last
possibly shorter; reference function for what the `Batch` loop computes. -/
def chunks {α : Type} : Nat → List α → List (List α)
  | _, [] => []
  | 0, _ :: _ => []
  | b + 1, x :: xs => (x :: xs.take b) :: chunks (b + 1) (xs.drop b)
termination_by _ l => l.length
decreasing_by simp [List.length_drop]; omega

theorem chunks_cons {α : Type} (b : Nat) (l : List α) (h : l ≠ []) :
    chunks (b + 1) l = l.take (b + 1) :: chunks (b + 1) (l.drop (b + 1)) := by
  match l with
  | [] => exact absurd rfl h
  | x :: xs => rw [chunks, List.take_succ_cons, List.drop_succ_cons]

theorem chunks_pos_cons {α : Type} (b : Nat) (hb : 1 ≤ b) (l : List α) (h : l ≠ []) :
    chunks b l = l.take b :: chunks b (l.drop b) := by
  obtain ⟨m, rfl⟩ : ∃ m, b = m + 1 := ⟨b - 1, by omega⟩
  exact chunks_cons m l h

theorem chunks_flatten {α : Type} (b : Nat) : ∀ l : List α, (chunks (b + 1) l).flatten = l
  | [] => by rw [chunks]; rfl
  | x :: xs => by
      rw [chunks]
      simp only [List.flatten_cons, List.cons_append]
      rw [chunks_flatten b (xs.drop b), List.take_append_drop]
termination_by l => l.length
decreasing_by simp [List.length_drop]; omega

theorem chunks_length_le {α : Type} (b : Nat) :
    ∀ l : List α, ∀ c ∈ chunks (b + 1) l, c.length ≤ b + 1
  | [] => by rw [chunks]; intro c hc; exact absurd hc (List.not_mem_nil c)
  | x :: xs => by
      rw [chunks]
      intro c hc
      rcases List.mem_cons.mp hc with rfl | hc
      · simp [List.length_take]
      · exact chunks_length_le b (xs.drop b) c hc
termination_by l => l.length
decreasing_by simp [List.length_drop]; omega

theorem chunks_dropLast_length {α : Type} (b : Nat) :
    ∀ l : List α, ∀ c ∈ (chunks (b + 1) l).dropLast, c.length = b + 1
  | [] => by rw [chunks]; intro c hc; exact absurd hc (List.not_mem_nil c)
  | x :: xs => by
      rw [chunks]
      intro c hc
      by_cases hnil : chunks (b + 1) (xs.drop b) = []
      · rw [hnil] at hc
        exact absurd hc (List.not_mem_nil c)
      · rw [List.dropLast_cons_of_ne_nil hnil] at hc
        rcases List.mem_cons.mp hc with rfl | hc
        · have hxs : xs.drop b ≠ [] := by
            intro h0
            rw [h0] at hnil
            exact hnil (by rw [chunks])
          have : b < xs.length := by
            rcases Nat.lt_or_ge b xs.length with h | h
            · exact h
            · exact absurd (List.drop_eq_nil_iff.mpr h) hxs
          simp [List.length_take]
          omega
        · exact chunks_dropLast_length b (xs.drop b) c hc
termination_by l => l.length
decreasing_by simp [List.length_drop]; omega

theorem take_min_length {α : Type} (l : List α) (n : Nat) :
    l.take (min n l.length) = l.take n := by
  rcases le_total n l.length with h | h
  · rw [min_eq_left h]
  · rw [min_eq_right h, List.take_length, List.take_of_length_le h]

/-- With a clamped batch size of at least 1 and enough fuel, the `Batch` loop
terminates normally and appends exactly the `chunks` of the not yet visited
part of the slice. -/
theorem batchLoop_run (elems : List GoVal) (b : Int) (hb : 1 ≤ b) :
    ∀ (fuel : Nat) (i : Int) (acc : List (List GoVal)),
      0 ≤ i → elems.length - i.toNat < fuel →
      batchLoop elems b fuel i acc =
        some (.ok (acc ++ chunks b.toNat (elems.drop i.toNat))) := by
  intro fuel
  induction fuel with
  | zero => intro i acc _ h; omega
  | succ fuel ih =>
    intro i acc hi hfuel
    rw [batchLoop]
    by_cases hlt : i < (elems.length : Int)
    · rw [if_pos hlt, if_pos (by constructor <;> omega)]
      have hrec := ih (i + b) (acc ++
        [ConvertSliceInterfaceToSlice
          (goSliceRange elems i (min (i + b) (elems.length : Int)))]) (by omega) (by omega)
      rw [hrec]
      have hdropne : elems.drop i.toNat ≠ [] := by
        intro h0
        have := List.drop_eq_nil_iff.mp h0
        omega
      have hlen : (elems.drop i.toNat).length = elems.length - i.toNat := List.length_drop _ _
      have hchunk : ConvertSliceInterfaceToSlice
          (goSliceRange elems i (min (i + b) (elems.length : Int))) =
          (elems.drop i.toNat).take b.toNat := by
        rw [convertSliceInterfaceToSlice_id, goSliceRange]
        have : (min (i + b) (elems.length : Int) - i).toNat =
            min b.toNat (elems.drop i.toNat).length := by
          rw [hlen]; omega
        rw [this, take_min_length]
      have hdrop : elems.drop (i + b).toNat = (elems.drop i.toNat).drop b.toNat := by
        rw [List.drop_drop]
        congr 1
        omega
      rw [hchunk, hdrop] at hrec ⊢
      rw [chunks_pos_cons b.toNat (by omega) (elems.drop i.toNat) hdropne]
      simp
    · rw [if_neg hlt]
      have : elems.drop i.toNat = [] := List.drop_eq_nil_iff.mpr (by omega)
      rw [this]
      have : chunks b.toNat ([] : List GoVal) = [] := by
        obtain ⟨m, hm⟩ : ∃ m, b.toNat = m + 1 := ⟨b.toNat - 1, by omega⟩
        rw [hm, chunks]
      rw [this, List.append_nil]

/-- `Batch` with fuel `len + 1` terminates for every batch size `b ≥ 1` and
returns the chunking of the input by the clamped batch size. -/
theorem batch_total (elems : List GoVal) (b : Int) (hb : 1 ≤ b) :
    Batch elems b (elems.length + 1) =
      some (.ok (chunks (min b (elems.length : Int)).toNat elems)) := by
  rcases eq_or_ne elems [] with rfl | hne
  · have hnil : chunks (min b ((([] : List GoVal).length : Nat) : Int)).toNat ([] : List GoVal) = [] := by
      rw [chunks]
    rw [hnil, Batch, batchLoop]
    norm_num
  · have hlen : 0 < elems.length := List.length_pos.mpr hne
    have hb2 : 1 ≤ min b (elems.length : Int) := by omega
    rw [Batch, batchLoop_run elems _ hb2 _ 0 [] (by omega) (by omega)]
    simp

/-- C4: for every sequence and every batch size `b ≥ 1`, `Batch` terminates
and returns sub-sequences that concatenate back to the input in order, each
of length at most `b`, all but possibly the last of equal full length. -/
theorem claim4_batch (elems : List GoVal) (b : Int) (hb : 1 ≤ b) :
    ∃ bs, Batch elems b (elems.length + 1) = some (.ok bs) ∧
      bs.flatten = elems ∧
      (∀ c ∈ bs, (c.length : Int) ≤ b) ∧
      (∀ c ∈ bs.dropLast, (c.length : Int) = min b (elems.length : Int)) := by
  refine ⟨chunks (min b (elems.length : Int)).toNat elems, batch_total elems b hb, ?_, ?_, ?_⟩
  · rcases eq_or_ne elems [] with rfl | hne
    · rw [chunks]; rfl
    · have h1 : 0 < elems.length := List.length_pos.mpr hne
      obtain ⟨m, hm⟩ : ∃ m, (min b (elems.length : Int)).toNat = m + 1 :=
        ⟨(min b (elems.length : Int)).toNat - 1, by omega⟩
      rw [hm]
      exact chunks_flatten m elems
  · intro c hc
    rcases eq_or_ne elems [] with rfl | hne
    · rw [chunks] at hc
      exact absurd hc (List.not_mem_nil c)
    · have h1 : 0 < elems.length := List.length_pos.mpr hne
      obtain ⟨m, hm⟩ : ∃ m, (min b (elems.length : Int)).toNat = m + 1 :=
        ⟨(min b (elems.length : Int)).toNat - 1, by omega⟩
      rw [hm] at hc
      have := chunks_length_le m elems c hc
      omega
  · intro c hc
    rcases eq_or_ne elems [] with rfl | hne
    · rw [chunks] at hc
      exact absurd hc (List.not_mem_nil c)
    · have h1 : 0 < elems.length := List.length_pos.mpr hne
      obtain ⟨m, hm⟩ : ∃ m, (min b (elems.length : Int)).toNat = m + 1 :=
        ⟨(min b (elems.length : Int)).toNat - 1, by omega⟩
      rw [hm] at hc
      have := chunks_dropLast_length m elems c hc
      omega

theorem claim4_witness :
    ∃ bs, Batch [GoVal.int .i 1, .int .i 2, .int .i 3, .int .i 4, .int .i 5] 2
        ([GoVal.int .i 1, .int .i 2, .int .i 3, .int .i 4, .int .i 5].length + 1) =
        some (.ok bs) ∧
      bs.flatten = [GoVal.int .i 1, .int .i 2, .int .i 3, .int .i 4, .int .i 5] ∧
      (∀ c ∈ bs, (c.length : Int) ≤ 2) ∧
      (∀ c ∈ bs.dropLast, (c.length : Int) =
        min 2 (([GoVal.int .i 1, .int .i 2, .int .i 3, .int .i 4, .int .i 5].length : Int))) :=
  claim4_batch [GoVal.int .i 1, .int .i 2, .int .i 3, .int .i 4, .int .i 5] 2 (by decide)

/-- With a clamped batch size of 0 (batch size 0 on a non-empty slice), the
loop index never advances: no amount of fuel makes the loop finish. -/
theorem batchLoop_zero_diverges (elems : List GoVal) (hne : elems ≠ []) :
    ∀ (fuel : Nat) (acc : List (List GoVal)), batchLoop elems 0 fuel 0 acc = none := by
  have hlen : 0 < (elems.length : Int) := by
    have := List.length_pos.mpr hne
    omega
  intro fuel
  induction fuel with
  | zero => intro acc; rw [batchLoop]
  | succ fuel ih =>
    intro acc
    rw [batchLoop, if_pos hlen, if_pos (by constructor <;> omega)]
    have h0 : (0 : Int) + 0 = 0 := by norm_num
    rw [h0]
    exact ih _

/-- C7 counterexample: with batch size `-1` (which the clamp keeps at `-1`)
on a non-empty slice, the claim predicts non-termination, but the call
terminates on its first iteration with the `reflect.Value.Slice` bounds
panic, already with fuel 2. -/
theorem claim7_counterexample :
    Batch [GoVal.bool true] (-1) 2 ≠ none ∧
    Batch [GoVal.bool true] (-1) 2 =
      some (.error "reflect.Value.Slice: slice index out of bounds") := by
  exact ⟨by decide, by decide⟩

/-- C7 amended: `Batch` terminates for every sequence and batch size
`b ≥ 1`; on a non-empty sequence with batch size `0` the loop index never
advances and the call does not terminate (every fuel yields `none`); on a
non-empty sequence with a negative batch size the call terminates
abnormally, panicking in the slice bounds check on the first iteration. -/
theorem claim7_amended (elems : List GoVal) (b : Int) (hb : 1 ≤ b)
    (elems2 : List GoVal) (h2 : elems2 ≠ []) (fuel : Nat) (bneg : Int) (hneg : bneg < 0) :
    (∃ bs, Batch elems b (elems.length + 1) = some (.ok bs)) ∧
    Batch elems2 0 fuel = none ∧
    Batch elems2 bneg 2 =
      some (.error "reflect.Value.Slice: slice index out of bounds") := by
  have hlen2 : 0 < (elems2.length : Int) := by
    have := List.length_pos.mpr h2
    omega
  refine ⟨⟨_, batch_total elems b hb⟩, ?_, ?_⟩
  · rw [Batch, min_eq_left (by omega)]
    exact batchLoop_zero_diverges elems2 h2 fuel []
  · rw [Batch, min_eq_left (by omega), batchLoop, if_pos hlen2,
      if_neg (by intro hcon; rcases hcon with ⟨h1, hmin⟩; omega)]

theorem claim7_witness :
    (∃ bs, Batch [GoVal.str "a", .str "b", .str "c"] 2
        ([GoVal.str "a", .str "b", .str "c"].length + 1) = some (.ok bs)) ∧
    Batch [GoVal.str "x"] 0 5 = none ∧
    Batch [GoVal.str "x"] (-1) 2 =
      some (.error "reflect.Value.Slice: slice index out of bounds") :=
  claim7_amended [GoVal.str "a", .str "b", .str "c"] 2 (by decide)
    [GoVal.str "x"] (by decide) 5 (-1) (by decide)

/-- Stand-in for the nil interface cells of `make([]interface, n)`; every
cell is overwritten before `Reverse` returns, so the value is irrelevant. -/
def goNilVal : GoVal := .bool false

/-- The loop of `Reverse` (src/list.go lines 233-235): two indices walk
inwards from the two ends, writing `slice[j]` and `slice[i]` into positions
`i` and `j` of the result; the parallel assignment reads only from `slice`,
so it is two sequential writes into `result`. -/
def reverseLoop (slice : List GoVal) (i j : Int) (result : List GoVal) : List GoVal :=
  if h : i ≤ j then
    reverseLoop slice (i + 1) (j - 1)
      ((result.set i.toNat (slice.getD j.toNat goNilVal)).set j.toNat
        (slice.getD i.toNat goNilVal))
  else
    result
termination_by (j + 1 - i).toNat
decreasing_by omega

/-- `Reverse` (src/list.go lines 231-237): allocate a same-length result and
run the swapping loop from `i, j := 0, len(slice)-1`. -/
def Reverse (slice : List GoVal) : List GoVal :=
  reverseLoop slice 0 ((slice.length : Int) - 1) (List.replicate slice.length goNilVal)

theorem resultComplete (slice result : List GoVal) (i j : Int)
    (hij : j < i) (hlen : result.length = slice.length)
    (hinv : ∀ k : Nat, k < slice.length →
      (i ≤ (k : Int) ∧ (k : Int) ≤ j) ∨ result[k]? = slice.reverse[k]?) :
    result = slice.reverse := by
  apply List.ext_getElem?
  intro k
  by_cases hk : k < slice.length
  · rcases hinv k hk with ⟨ha, hb⟩ | h
    · omega
    · exact h
  · rw [List.getElem?_eq_none (by omega),
      List.getElem?_eq_none (by rw [List.length_reverse]; omega)]

theorem reverseLoop_eq (slice : List GoVal) :
    ∀ (n : Nat) (i j : Int) (result : List GoVal),
      (j + 1 - i).toNat ≤ n →
      0 ≤ i →
      i + j = (slice.length : Int) - 1 →
      result.length = slice.length →
      (∀ k : Nat, k < slice.length →
        (i ≤ (k : Int) ∧ (k : Int) ≤ j) ∨ result[k]? = slice.reverse[k]?) →
      reverseLoop slice i j result = slice.reverse := by
  intro n
  induction n with
  | zero =>
    intro i j result hn hi hsum hlen hinv
    rw [reverseLoop, dif_neg (by omega)]
    exact resultComplete slice result i j (by omega) hlen hinv
  | succ n ih =>
    intro i j result hn hi hsum hlen hinv
    by_cases hij : i ≤ j
    · rw [reverseLoop, dif_pos hij]
      apply ih (i + 1) (j - 1) _ (by omega) (by omega) (by omega) (by simp [hlen])
      intro k hk
      by_cases hcase : i + 1 ≤ (k : Int) ∧ (k : Int) ≤ j - 1
      · exact Or.inl hcase
      right
      rw [List.getElem?_reverse hk]
      simp only [List.getElem?_set, List.length_set, hlen]
      split_ifs with h1 h2 h3 h4
      · have hkeq : slice.length - 1 - k = i.toNat := by omega
        rw [hkeq, List.getD_eq_getElem?_getD,
          List.getElem?_eq_getElem (show i.toNat < slice.length by omega)]
        rfl
      · exfalso; omega
      · have hkeq : slice.length - 1 - k = j.toNat := by omega
        rw [hkeq, List.getD_eq_getElem?_getD,
          List.getElem?_eq_getElem (show j.toNat < slice.length by omega)]
        rfl
      · exfalso; omega
      · rcases hinv k hk with ⟨ha, hb⟩ | h
        · exfalso; omega
        · rw [List.getElem?_reverse hk] at h
          exact h
    · rw [reverseLoop, dif_neg hij]
      exact resultComplete slice result i j (by omega) hlen hinv

theorem Reverse_eq_reverse (slice : List GoVal) : Reverse slice = slice.reverse := by
  rw [Reverse]
  apply reverseLoop_eq slice slice.length 0 ((slice.length : Int) - 1)
  · omega
  · omega
  · omega
  · simp
  · intro k hk
    exact Or.inl (by constructor <;> omega)

example : Reverse [GoVal.int .i 1, .int .i 2, .int .i 3] =
    [GoVal.int .i 3, .int .i 2, .int .i 1] := by
  rw [Reverse_eq_reverse]
  rfl

/-- C10: `Reverse` is an involution; a single application returns a sequence
of the same length holding the elements in exactly reversed order.  (The
input itself is untouched: the loop only writes into the freshly allocated
result list.) -/
theorem claim10_reverse (s : List GoVal) :
    Reverse (Reverse s) = s ∧
    (Reverse s).length = s.length ∧
    ∀ k : Nat, k < s.length → (Reverse s)[k]? = s[s.length - 1 - k]? := by
  refine ⟨?_, ?_, ?_⟩
  · rw [Reverse_eq_reverse, Reverse_eq_reverse, List.reverse_reverse]
  · rw [Reverse_eq_reverse, List.length_reverse]
  · intro k hk
    rw [Reverse_eq_reverse]
    exact List.getElem?_reverse hk

theorem claim10_witness :
    Reverse (Reverse [GoVal.str "a", .str "b", .str "c"]) =
      [GoVal.str "a", .str "b", .str "c"] ∧
    (Reverse [GoVal.str "a", .str "b", .str "c"]).length = 3 ∧
    (Reverse [GoVal.str "a", .str "b", .str "c"])[0]? = some (.str "c") := by
  obtain ⟨h1, h2, h3⟩ := claim10_reverse [GoVal.str "a", .str "b", .str "c"]
  exact ⟨h1, h2, by simpa using h3 0 (by decide)⟩

/-- Outcome of `SaveAsCSV`: an I/O error value returned to the caller, a
runtime panic (failed type assertion), or the successfully written table. -/
inductive CsvResult
  | ioError (e : String)
  | panicked (msg : String)
  | ok (table : List (List String))
deriving DecidableEq

/-- The type assertion `fieldValue.Interface().(string)` (src/list.go line
314): yields the string, or panics on any other dynamic type. -/
def assertString (v : GoVal) : Except String String :=
  match v with
  | .str s => .ok s
  | _ => .error "interface conversion: interface is not string"

/-- The inner loop of `SaveAsCSV` (lines 311-315): build one row by asserting
every field value of a record to be a string, in field order; the first
non-string field aborts the call. -/
def buildRow : List GoVal → Except String (List String)
  | [] => .ok []
  | v :: vs => do
      let s ← assertString v
      let rest ← buildRow vs
      pure (s :: rest)

/-- The outer loop of `SaveAsCSV` (lines 310-317): one row per record. -/
def writeRows : List (List GoVal) → Except String (List (List String))
  | [] => .ok []
  | r :: rs => do
      let row ← buildRow r
      let rest ← writeRows rs
      pure (row :: rest)

/-- `SaveAsCSV` (src/list.go lines 291-322).  `createResult` is the outcome
of `os.Create(filename)`: on error the function returns that error before
writing anything; otherwise the header row (the record type's field names in
declaration order) and then one row per record are written, with every field
value asserted to be a string. -/
def SaveAsCSV (createResult : Except String Unit) (fieldNames : List String)
    (records : List (List GoVal)) : CsvResult :=
  match createResult with
  | .error e => .ioError e
  | .ok _ =>
      match writeRows records with
      | .error m => .panicked m
      | .ok rows => .ok (fieldNames :: rows)

example : SaveAsCSV (.ok ()) ["Name", "Age"] [[.str "Alice", .str "25"]] =
    .ok [["Name", "Age"], ["Alice", "25"]] := by decide
example : SaveAsCSV (.ok ()) ["Name", "Age"] [[.str "Alice", .int .i 25]] =
    .panicked "interface conversion: interface is not string" := by decide

theorem buildRow_error_of_nonstring (r : List GoVal) (v : GoVal) (hv : v ∈ r)
    (hns : ∀ s, v ≠ .str s) : ∃ m, buildRow r = .error m := by
  induction r with
  | nil => exact absurd hv (List.not_mem_nil v)
  | cons w ws ih =>
    rcases List.mem_cons.mp hv with rfl | hv2
    · cases v with
      | str s => exact absurd rfl (hns s)
      | int k x => exact ⟨_, rfl⟩
      | uint k x => exact ⟨_, rfl⟩
      | float k x => exact ⟨_, rfl⟩
      | bool b => exact ⟨_, rfl⟩
      | struct n f => exact ⟨_, rfl⟩
    · obtain ⟨m, hm⟩ := ih hv2
      cases w with
      | str s =>
          refine ⟨m, ?_⟩
          simp [buildRow, assertString, hm, Bind.bind, Except.bind]
      | int k x => exact ⟨_, rfl⟩
      | uint k x => exact ⟨_, rfl⟩
      | float k x => exact ⟨_, rfl⟩
      | bool b => exact ⟨_, rfl⟩
      | struct n f => exact ⟨_, rfl⟩

theorem writeRows_error_of_bad_record (records : List (List GoVal))
    (r : List GoVal) (hr : r ∈ records) (m : String) (hm : buildRow r = .error m) :
    ∃ m2, writeRows records = .error m2 := by
  induction records with
  | nil => exact absurd hr (List.not_mem_nil r)
  | cons q qs ih =>
    rcases List.mem_cons.mp hr with rfl | hr2
    · exact ⟨m, by simp [writeRows, hm, Bind.bind, Except.bind]⟩
    · match hq : buildRow q with
      | .error mq => exact ⟨mq, by simp [writeRows, hq, Bind.bind, Except.bind]⟩
      | .ok row =>
          obtain ⟨m2, hm2⟩ := ih hr2
          exact ⟨m2, by simp [writeRows, hq, hm2, Bind.bind, Except.bind, Functor.map, Except.map]⟩

/-- C9: a failure to create the destination file is returned to the caller
as an error value, and no row is written; and whenever some record holds a
field value that is not string-typed, the call (with the file successfully
created) aborts with the type-assertion panic instead of stringifying the
value. -/
theorem claim9_saveAsCSV (e : String) (fieldNames : List String)
    (records : List (List GoVal)) (r : List GoVal) (hr : r ∈ records)
    (v : GoVal) (hv : v ∈ r) (hns : ∀ s, v ≠ .str s) :
    SaveAsCSV (.error e) fieldNames records = .ioError e ∧
    ∃ m, SaveAsCSV (.ok ()) fieldNames records = .panicked m := by
  refine ⟨rfl, ?_⟩
  obtain ⟨m, hm⟩ := buildRow_error_of_nonstring r v hv hns
  obtain ⟨m2, hm2⟩ := writeRows_error_of_bad_record records r hr m hm
  exact ⟨m2, by simp [SaveAsCSV, hm2]⟩

theorem claim9_witness :
    SaveAsCSV (.error "open out.csv: permission denied") ["Name", "Age"]
        [[GoVal.str "Alice", .int .i 25]] = .ioError "open out.csv: permission denied" ∧
    ∃ m, SaveAsCSV (.ok ()) ["Name", "Age"] [[GoVal.str "Alice", .int .i 25]] = .panicked m :=
  claim9_saveAsCSV "open out.csv: permission denied" ["Name", "Age"]
    [[GoVal.str "Alice", .int .i 25]] [GoVal.str "Alice", .int .i 25] (by decide)
    (.int .i 25) (by decide) (fun s h => by simp at h)

end Guti
